import Mathlib

/-!
Shallow embedding of the mailerlite-go client library core
(src/client.go and src/meta.go): request construction, option/query
encoding with filter flattening, response classification and error
mapping, the transport executor, and pagination token extraction.

External library behaviour (net/url parsing, encoding/json, go-querystring)
is modelled by explicit function parameters or small executable models;
repository code is translated directly from the source.
-/

/-- `url.Values` (a Go `map[string][]string`), modelled as an association
list with unique keys.  Go map iteration order is unspecified, but every
function below produces the same map regardless of iteration order, so a
list in some fixed order is a faithful model. -/
abbrev Values := List (String × List String)

namespace Values

/-- Map lookup: `v[k]` returning `none` when the key is absent. -/
def getKey : Values → String → Option (List String)
  | [], _ => none
  | (k', v) :: rest, k => if k' = k then some v else getKey rest k

/-- Map assignment `v[k] = val` (replace when present, append otherwise),
as in the loop body of `addOptions`. -/
def setKey : Values → String → List String → Values
  | [], k, v => [(k, v)]
  | (k', v') :: rest, k, v =>
      if k' = k then (k, v) :: rest else (k', v') :: setKey rest k v

/-- `url.Values.Add`: appends one value to the slice stored under `k`. -/
def addKey : Values → String → String → Values
  | [], k, v => [(k, [v])]
  | (k', v') :: rest, k, v =>
      if k' = k then (k', v' ++ [v]) :: rest else (k', v') :: addKey rest k v

/-- Number of entries stored under key `k` (0 or 1 for a well-formed map). -/
def countKey : Values → String → Nat
  | [], _ => 0
  | (k', _) :: rest, k => (if k' = k then 1 else 0) + countKey rest k

/-- `url.Values.Get`: first value under the key, or `""` when absent. -/
def get (vs : Values) (k : String) : String :=
  match getKey vs k with
  | some (v :: _) => v
  | _ => ""

end Values

/-- A parsed `*url.URL`: everything before the query string, plus the
query as `url.Values`.  Percent-escaping is not modelled (no claim
depends on it); values stand for their escaped forms. -/
structure URL where
  pre : String
  query : Values
deriving DecidableEq

/-- Insertion step for the key-sorted encoding used by `url.Values.Encode`. -/
def insertByKey (e : String × List String) : Values → Values
  | [] => [e]
  | f :: rest => if e.1 ≤ f.1 then e :: f :: rest else f :: insertByKey e rest

/-- Sort a `Values` map by key (model of `Encode`'s sorted iteration). -/
def sortByKey (vs : Values) : Values :=
  vs.foldr insertByKey []

/-- `url.Values.Encode`: keys in sorted order, each value as `k=v`,
joined by `&`. -/
def encodeQuery (vs : Values) : String :=
  String.intercalate "&"
    ((sortByKey vs).foldr (fun kv acc => (kv.2.map (fun v => kv.1 ++ "=" ++ v)) ++ acc) [])

/-- `url.URL.String` after `RawQuery` was set from `Encode`. -/
def URL.render (u : URL) : String :=
  let q := encodeQuery u.query
  if q = "" then u.pre else u.pre ++ "?" ++ q

/-- The `([]byte, error)` result of `ioutil.ReadAll`: data on success, or
a read error. -/
inductive ReadResult
  | ok (data : String)
  | readErr
deriving DecidableEq

/-- The state of an `http.Response` body (`io.ReadCloser`): an unread body
whose read either succeeds with its content or fails, or a body already
drained by a previous read.  Reading is destructive, which is why the
embedding passes the body state explicitly. -/
inductive Body
  | fresh (content : ReadResult)
  | drained
deriving DecidableEq

/-- `ioutil.ReadAll` on the body: returns the data (or a read error) and
the body's state afterwards.  A drained body reads as empty with no error. -/
def Body.readAll : Body → ReadResult × Body
  | .fresh (.ok s) => (.ok s, .drained)
  | .fresh .readErr => (.readErr, .fresh .readErr)
  | .drained => (.ok "", .drained)

/-- The request data that `ErrorResponse.Error` reads back from
`Response.Request`: method and URL (the URL already rendered to a string,
as `%v` prints it). -/
structure Request where
  method : String
  url : String
deriving DecidableEq

/-- An `*http.Response` as the pipeline sees it: the originating request,
the status code, and the body state. -/
structure HttpResponse where
  request : Request
  statusCode : Int
  body : Body
deriving DecidableEq

/-- `ErrorResponse`: the `Response` pointer is modelled by the request
info and status code that `Error()` reads from it; `Errors` (`interface{}`)
is an opaque payload, `none` standing for Go `nil`. -/
structure ErrorResponse where
  request : Request
  statusCode : Int
  message : String
  errors : Option String
deriving DecidableEq

/-- `ErrorResponse.Error`:
`fmt.Sprintf("%v %v: %d %v", Method, URL, StatusCode, Message)`. -/
def ErrorResponse.errorString (r : ErrorResponse) : String :=
  r.request.method ++ " " ++ r.request.url ++ ": " ++ toString r.statusCode ++ " " ++ r.message

/-- The two error variants returned by `checkResponse`: the generic
`*ErrorResponse` and `*AuthError` (a type-cast of the same record). -/
inductive GoError
  | errorResponse (er : ErrorResponse)
  | authError (er : ErrorResponse)
deriving DecidableEq

/-- `Error()` on either variant; `AuthError.Error` delegates to
`ErrorResponse.Error`. -/
def GoError.errString : GoError → String
  | .errorResponse er => er.errorString
  | .authError er => er.errorString

/-- The message field of either variant. -/
def GoError.msg : GoError → String
  | .errorResponse er => er.message
  | .authError er => er.message

/-- The errors payload of either variant. -/
def GoError.errorsPayload : GoError → Option String
  | .errorResponse er => er.errors
  | .authError er => er.errors

/-- Whether the variant is the authentication error. -/
def GoError.isAuth : GoError → Bool
  | .errorResponse _ => false
  | .authError _ => true

/-- What `json.Unmarshal` extracts from an error body into
`ErrorResponse`: the `message` and `errors` fields. -/
structure ParsedBody where
  message : String
  errors : Option String
deriving DecidableEq

/-- `checkResponse` (src/client.go:156): success for 202 and for any
status in [200,299]; otherwise reads the body, attempts to unmarshal it
into the error record (falling back to the raw text as message), and
returns the 401 variant or the generic variant.  `unmarshal` models
`json.Unmarshal` into the `{message, errors}` shape (`none` = parse
failure).  The body is consumed by the read, so the response's new body
state is returned alongside the verdict. -/
def checkResponse (unmarshal : String → Option ParsedBody) (r : HttpResponse) :
    Option GoError × HttpResponse :=
  if r.statusCode = 202 then (none, r)
  else if 200 ≤ r.statusCode ∧ r.statusCode ≤ 299 then (none, r)
  else
    let er0 : ErrorResponse :=
      { request := r.request, statusCode := r.statusCode, message := "", errors := none }
    let rd := r.body.readAll
    let er : ErrorResponse :=
      match rd.1 with
      | .readErr => er0
      | .ok data =>
          if data.length > 0 then
            match unmarshal data with
            | some p => { er0 with message := p.message, errors := p.errors }
            | none => { er0 with message := data }
          else er0
    let r' : HttpResponse := { r with body := rd.2 }
    if r.statusCode = 401 then (some (.authError er), r')
    else (some (.errorResponse er), r')

/-- The message `checkResponse` puts in the error record, as a function
of the body's read result. -/
def respMessage (unmarshal : String → Option ParsedBody) (r : HttpResponse) : String :=
  match r.body.readAll.1 with
  | .readErr => ""
  | .ok data =>
      if data.length > 0 then
        match unmarshal data with
        | some p => p.message
        | none => data
      else ""

/-- The errors payload `checkResponse` puts in the error record. -/
def respErrors (unmarshal : String → Option ParsedBody) (r : HttpResponse) : Option String :=
  match r.body.readAll.1 with
  | .readErr => none
  | .ok data =>
      if data.length > 0 then
        match unmarshal data with
        | some p => p.errors
        | none => none
      else none

/-- The error record built by `checkResponse` for a failing response. -/
def failureER (unmarshal : String → Option ParsedBody) (r : HttpResponse) : ErrorResponse :=
  { request := r.request, statusCode := r.statusCode,
    message := respMessage unmarshal r, errors := respErrors unmarshal r }

/-- The accumulator of `addOptions`' loop over `newValues`: the merged
query map plus the `filterKey`/`filterValue` locals. -/
structure LoopState where
  orig : Values
  filterKey : String
  filterValue : String
deriving DecidableEq

/-- The `for k, v := range newValues` loop of `addOptions`
(src/client.go:205): skip `"Filter"`, capture `"Filter[Name]"` as
`filter[<name>]` and `"Filter[Value]"` as the filter value, merge every
other key into the original query (`origValues[k] = v`).  `v.headD ""`
models `v[0]`; `query.Values` never produces an empty value slice. -/
def applyLoop : Values → LoopState → LoopState
  | [], st => st
  | (k, v) :: rest, st =>
      if k = "Filter" then applyLoop rest st
      else if k = "Filter[Name]" then
        applyLoop rest { st with filterKey := "filter[" ++ v.headD "" ++ "]" }
      else if k = "Filter[Value]" then
        applyLoop rest { st with filterValue := v.headD "" }
      else applyLoop rest { st with orig := st.orig.setKey k v }

/-- The query-merging core of `addOptions`: run the loop, then
`origValues.Add(filterKey, filterValue)` when a filter key was seen. -/
def applyOptions (orig newValues : Values) : Values :=
  let st := applyLoop newValues { orig := orig, filterKey := "", filterValue := "" }
  if st.filterKey ≠ "" then st.orig.addKey st.filterKey st.filterValue else st.orig

/-- Whether a query key has the shape `filter[...]`, i.e. starts with
the seven characters `filter[`. -/
def isFilterKey (k : String) : Bool :=
  "filter[".data.isPrefixOf k.data

/-- The `opt interface{}` argument of `addOptions` as the reflection and
`query.Values` calls see it: either a nil pointer, or a value whose
`query.Values` encoding succeeds with a map or fails with an error. -/
inductive OptInput
  | nilPtr
  | opts (vals : Except String Values)

/-- The two error sources inside `addOptions`: `url.Parse` failure and
`query.Values` failure. -/
inductive AddOptErr
  | parseErr
  | valuesErr (e : String)
deriving DecidableEq

/-- `addOptions` (src/client.go:183): nil-pointer options return the
input string unchanged; otherwise parse the URL (returning `(s, err)` on
failure), encode the options (returning `(s, err)` on failure), merge
with the filter-flattening loop, and re-render the URL.  `urlParse`
models `url.Parse`. -/
def addOptions (urlParse : String → Option URL) (s : String) (opt : OptInput) :
    String × Option AddOptErr :=
  match opt with
  | .nilPtr => (s, none)
  | .opts vals =>
      match urlParse s with
      | none => (s, some .parseErr)
      | some origURL =>
          match vals with
          | .error e => (s, some (.valuesErr e))
          | .ok newValues =>
              (URL.render { origURL with query := applyOptions origURL.query newValues }, none)

/-- `http.MethodGet`. -/
def methodGet : String := "GET"

/-- `http.MethodPost`. -/
def methodPost : String := "POST"

/-- `http.MethodPut`. -/
def methodPut : String := "PUT"

/-- `http.MethodDelete`. -/
def methodDelete : String := "DELETE"

/-- An `*http.Request` as built by `newRequest`: method, URL string,
body bytes, and headers in the order they are set. -/
structure GoRequest where
  method : String
  url : String
  body : String
  headers : List (String × String)
deriving DecidableEq

/-- The `body interface{}` argument of `newRequest`, under its two
external interpretations: `asJson` is the result of `json.Marshal` on
the value (the `json.Encoder` then appends a newline), `asOpt` is the
same value as `addOptions`/`query.Values` sees it. -/
structure BodyVal where
  asJson : Except String String
  asOpt : OptInput

/-- The headers `newRequest` sets (src/client.go:111). -/
def stdHeaders (apiKey : String) : List (String × String) :=
  [("Content-Type", "application/json"),
   ("Authorization", "Bearer " ++ apiKey),
   ("Accept", "application/json"),
   ("User-Agent", "Mailerlite-Client-Golang-v1")]

/-- `http.NewRequest`: fails when the URL does not parse, otherwise
yields the request with no headers yet. -/
def httpNewRequest (urlParse : String → Option URL) (method reqURL bodyStr : String) :
    Except String GoRequest :=
  match urlParse reqURL with
  | none => .error ("net/url: invalid URL " ++ reqURL)
  | some _ => .ok { method := method, url := reqURL, body := bodyStr, headers := [] }

/-- The header-setting block of `newRequest`. -/
def setHeaders (apiKey : String) (req : GoRequest) : GoRequest :=
  { req with headers := stdHeaders apiKey }

/-- The Go `json.Marshal` encoding of a nil `interface{}` value is the
four bytes `null` (the `json.Encoder` appends the newline). -/
def goNilPayload : BodyVal :=
  { asJson := .ok "null", asOpt := .nilPtr }

/-- `newRequest` (src/client.go:91): URL is base ++ path; POST/PUT/DELETE
JSON-encode the body (an encode failure aborts the call;
`json.Encoder.Encode` writes the marshalled value plus a trailing
newline); GET passes the URL through `addOptions`, discarding the error
component (`reqURL, _ = addOptions(reqURL, body)`); other methods use an
empty body.  `http.NewRequest` then builds the request and the standard
headers are set. -/
def newRequest (apiBase apiKey : String) (urlParse : String → Option URL)
    (method path : String) (body : BodyVal) : Except String GoRequest :=
  let reqURL := apiBase ++ path
  if method = methodPost ∨ method = methodPut ∨ method = methodDelete then
    match body.asJson with
    | .error e => .error e
    | .ok enc => (httpNewRequest urlParse method reqURL (enc ++ "\n")).map (setHeaders apiKey)
  else if method = methodGet then
    (httpNewRequest urlParse method (addOptions urlParse reqURL body.asOpt).1 "").map
      (setHeaders apiKey)
  else
    (httpNewRequest urlParse method reqURL "").map (setHeaders apiKey)

/-- A `context.Context` as `do` consults it: whether it is already done,
and the error `ctx.Err()` reports in that case. -/
structure Ctx where
  done : Bool
  errMsg : String
deriving DecidableEq

/-- The errors `do` can return: the context's cancellation error, the
raw transport error, the classifier's error, or a JSON decode error. -/
inductive DoError
  | ctxErr (e : String)
  | transportErr (e : String)
  | apiErr (e : GoError)
  | decodeErr (e : String)
deriving DecidableEq

/-- `do` (src/client.go:119): on transport failure, return the context's
error when the context is already done (the `select` on `ctx.Done()`),
else the raw transport error, with a nil response either way.  On
transport success run `checkResponse`; on classification failure return
the wrapped response together with the error.  On success, when a decode
target was supplied, decode the body (`dec` models
`json.NewDecoder(resp.Body).Decode(v)`, consuming the body; `some` is a
decode error), returning a nil response on decode failure. -/
def doRequest (ctx : Ctx) (transportResult : Except String HttpResponse)
    (unmarshal : String → Option ParsedBody)
    (decodeTarget : Option (ReadResult → Option String)) :
    Option HttpResponse × Option DoError :=
  match transportResult with
  | .error e =>
      if ctx.done then (none, some (.ctxErr ctx.errMsg))
      else (none, some (.transportErr e))
  | .ok resp =>
      match checkResponse unmarshal resp with
      | (some e, resp') => (some resp', some (.apiErr e))
      | (none, resp') =>
          match decodeTarget with
          | none => (some resp', none)
          | some dec =>
              let rd := resp'.body.readAll
              match dec rd.1 with
              | some de => (none, some (.decodeErr de))
              | none => (some { resp' with body := rd.2 }, none)

/-- The `Links` object of a paginated response (src/meta.go:20). -/
structure Links where
  first : String
  last : String
  prev : String
  next : String
deriving DecidableEq

/-- `pageTokenFromURL` (src/meta.go:89): parse the URL
(`url.ParseRequestURI`, modelled by `parseReqURI`) and return the
`page_token` query parameter (`Get` returns `""` when absent). -/
def pageTokenFromURL (parseReqURI : String → Option URL) (urlText : String) :
    Except String String :=
  match parseReqURI urlText with
  | none => .error ("parse " ++ urlText)
  | some u => .ok (u.query.get "page_token")

/-- `nextPageToken` (src/meta.go:43): empty token with no error when the
receiver is nil (`none`) or `next` is empty; otherwise extract the token
from `next`, propagating a parse error. -/
def nextPageToken (parseReqURI : String → Option URL) (l : Option Links) :
    Except String String :=
  match l with
  | none => .ok ""
  | some lk =>
      if lk.next = "" then .ok ""
      else
        match pageTokenFromURL parseReqURI lk.next with
        | .error e => .error e
        | .ok token => .ok token

/-- `prevPageToken` (src/meta.go:54): symmetric to `nextPageToken`,
using `prev`. -/
def prevPageToken (parseReqURI : String → Option URL) (l : Option Links) :
    Except String String :=
  match l with
  | none => .ok ""
  | some lk =>
      if lk.prev = "" then .ok ""
      else
        match pageTokenFromURL parseReqURI lk.prev with
        | .error e => .error e
        | .ok token => .ok token

/-- Split a character list at every occurrence of `c` (a structurally
recursive `splitOn`). -/
def splitOnChar (c : Char) : List Char → List (List Char)
  | [] => [[]]
  | x :: xs =>
      let r := splitOnChar c xs
      if x = c then [] :: r
      else
        match r with
        | [] => [[x]]
        | y :: ys => (x :: y) :: ys

/-- The query-string parser of a concrete `url.Parse` instantiation used
in concrete evaluations: `k=v` pairs separated by `&`. -/
def parseQueryString (q : String) : Values :=
  (splitOnChar '&' q.data).foldl (fun acc pair =>
    match splitOnChar '=' pair with
    | [] => acc
    | k :: rest => acc.addKey (String.mk k) (String.mk (List.intercalate ['='] rest))) []

/-- A concrete executable URL parser for instantiating the `urlParse` /
`parseReqURI` parameters in concrete evaluations: splits at the first
`?`; a string with more than one `?` fails to parse. -/
def demoParse (s : String) : Option URL :=
  match splitOnChar '?' s.data with
  | [p] => some { pre := String.mk p, query := [] }
  | [p, q] => some { pre := String.mk p, query := parseQueryString (String.mk q) }
  | _ => none

/-- Characterization of `checkResponse`: success exactly on [200,299]
(202 is inside that range), and on failure the variant is chosen by the
401 test over the record `failureER`, with the body drained. -/
lemma checkResponse_eq (u : String → Option ParsedBody) (r : HttpResponse) :
    checkResponse u r =
      if 200 ≤ r.statusCode ∧ r.statusCode ≤ 299 then (none, r)
      else ((if r.statusCode = 401 then some (.authError (failureER u r))
             else some (.errorResponse (failureER u r))),
            { r with body := r.body.readAll.2 }) := by
  rcases r with ⟨req, c, b⟩
  unfold checkResponse failureER respMessage respErrors
  by_cases h202 : c = 202
  · subst h202
    simp
  · simp only [if_neg h202]
    by_cases hr : 200 ≤ c ∧ c ≤ 299
    · simp [hr]
    · simp only [if_neg hr]
      cases b with
      | drained => by_cases h401 : c = 401 <;> simp [h401, Body.readAll]
      | fresh content =>
          cases content with
          | readErr => by_cases h401 : c = 401 <;> simp [h401, Body.readAll]
          | ok s =>
              by_cases h401 : c = 401 <;>
                by_cases hs : 0 < s.length <;>
                  cases hu : u s <;>
                    simp [h401, Body.readAll, hs, hu]

/-- C1: `checkResponse` returns nil (no error) exactly when the status
code is 202 or lies in [200,299]; every other status yields a non-nil
error. -/
theorem checkResponse_success_iff (u : String → Option ParsedBody) (r : HttpResponse) :
    (checkResponse u r).1 = none ↔
      (r.statusCode = 202 ∨ (200 ≤ r.statusCode ∧ r.statusCode ≤ 299)) := by
  rw [checkResponse_eq]
  by_cases hr : 200 ≤ r.statusCode ∧ r.statusCode ≤ 299
  · simp [hr]
  · simp only [if_neg hr]
    by_cases h401 : r.statusCode = 401 <;> simp [h401] <;> omega

/-- C2: for every failing response, `checkResponse` returns the
authentication-error variant exactly when the status is 401 (generic
variant otherwise), and the string form of either variant is exactly
`<METHOD> <URL>: <status-code> <message>`. -/
theorem checkResponse_variant_and_errString (u : String → Option ParsedBody)
    (r : HttpResponse) (e : GoError)
    (h : (checkResponse u r).1 = some e) :
    ((∃ er, e = GoError.authError er) ↔ r.statusCode = 401) ∧
      e.errString = r.request.method ++ " " ++ r.request.url ++ ": "
        ++ toString r.statusCode ++ " " ++ e.msg := by
  rw [checkResponse_eq] at h
  by_cases hr : 200 ≤ r.statusCode ∧ r.statusCode ≤ 299
  · simp [hr] at h
  · simp only [if_neg hr] at h
    by_cases h401 : r.statusCode = 401
    · simp only [if_pos h401] at h
      obtain rfl : GoError.authError (failureER u r) = e := by simpa using h
      exact ⟨⟨fun _ => h401, fun _ => ⟨failureER u r, rfl⟩⟩, rfl⟩
    · simp only [if_neg h401] at h
      obtain rfl : GoError.errorResponse (failureER u r) = e := by simpa using h
      refine ⟨⟨?_, fun hc => absurd hc h401⟩, rfl⟩
      rintro ⟨er, her⟩
      exact GoError.noConfusion her

/-- Witness for C2 at a concrete failing response (status 404, drained
body): generic variant, error string in the required format. -/
theorem checkResponse_variant_and_errString_witness :
    ((∃ er, GoError.errorResponse ⟨⟨"GET", "https://connect.mailerlite.com/api/subscribers"⟩,
        404, "", none⟩ = GoError.authError er) ↔ (404 : Int) = 401) ∧
      (GoError.errorResponse ⟨⟨"GET", "https://connect.mailerlite.com/api/subscribers"⟩,
        404, "", none⟩).errString
        = "GET" ++ " " ++ "https://connect.mailerlite.com/api/subscribers" ++ ": "
          ++ toString (404 : Int) ++ " "
          ++ (GoError.errorResponse ⟨⟨"GET", "https://connect.mailerlite.com/api/subscribers"⟩,
              404, "", none⟩).msg :=
  checkResponse_variant_and_errString (fun _ => none)
    ⟨⟨"GET", "https://connect.mailerlite.com/api/subscribers"⟩, 404, Body.drained⟩ _ rfl

/-- C7 counterexample: classification is not idempotent in error content.
On a 400 response with unread body "boom" (not valid JSON), the first
call produces the message "boom"; the first call drains the body, so the
second call on the same response object produces the empty message. -/
theorem checkResponse_repeat_changes_message :
    (checkResponse (fun _ => none)
        ⟨⟨"GET", "https://api.example"⟩, 400, .fresh (.ok "boom")⟩).1.map GoError.msg
      = some "boom"
  ∧ (checkResponse (fun _ => none)
        ((checkResponse (fun _ => none)
          ⟨⟨"GET", "https://api.example"⟩, 400, .fresh (.ok "boom")⟩).2)).1.map GoError.msg
      = some "" := by
  exact ⟨rfl, rfl⟩

/-- C7 amended: repeated classification of the same response object
yields the same verdict (nil versus non-nil) and an error of the same
variant; the message and errors payload need not coincide, because the
first call consumes the body. -/
theorem checkResponse_verdict_variant_idempotent (u : String → Option ParsedBody)
    (r : HttpResponse) :
    ((checkResponse u ((checkResponse u r).2)).1 = none ↔ (checkResponse u r).1 = none)
  ∧ ((checkResponse u ((checkResponse u r).2)).1.map GoError.isAuth
      = (checkResponse u r).1.map GoError.isAuth) := by
  simp only [checkResponse_eq]
  by_cases hr : 200 ≤ r.statusCode ∧ r.statusCode ≤ 299
  · simp [hr]
  · by_cases h401 : r.statusCode = 401 <;> simp [hr, h401, GoError.isAuth]

/-- C10: for a failing response whose body read fails or returns empty
data, `checkResponse` still returns the status-appropriate variant, with
empty message and nil errors payload; the read failure is swallowed. -/
theorem checkResponse_unreadable_body (u : String → Option ParsedBody) (r : HttpResponse)
    (hfail : ¬(200 ≤ r.statusCode ∧ r.statusCode ≤ 299))
    (hbody : r.body.readAll.1 = .readErr ∨ r.body.readAll.1 = .ok "") :
    (checkResponse u r).1 =
      some (if r.statusCode = 401
        then .authError { request := r.request, statusCode := r.statusCode,
                          message := "", errors := none }
        else .errorResponse { request := r.request, statusCode := r.statusCode,
                              message := "", errors := none }) := by
  rw [checkResponse_eq]
  simp only [if_neg hfail]
  have hm : respMessage u r = "" := by
    unfold respMessage
    rcases hbody with h | h <;> rw [h] <;> simp
  have he : respErrors u r = none := by
    unfold respErrors
    rcases hbody with h | h <;> rw [h] <;> simp
  unfold failureER
  rw [hm, he]
  by_cases h401 : r.statusCode = 401 <;> simp [h401]

/-- Witness for C10: a 500 response with an unreadable body yields the
generic variant with empty message and nil errors. -/
theorem checkResponse_unreadable_body_witness :
    ¬(200 ≤ (500 : Int) ∧ (500 : Int) ≤ 299)
  ∧ ((Body.fresh .readErr).readAll.1 = .readErr ∨ (Body.fresh .readErr).readAll.1 = .ok "")
  ∧ (checkResponse (fun _ => some ⟨"x", some "y"⟩)
        ⟨⟨"POST", "https://connect.mailerlite.com/api/subscribers"⟩, 500, .fresh .readErr⟩).1 =
      some (.errorResponse ⟨⟨"POST", "https://connect.mailerlite.com/api/subscribers"⟩,
        500, "", none⟩) := by
  refine ⟨by decide, Or.inl rfl, ?_⟩
  exact checkResponse_unreadable_body (fun _ => some ⟨"x", some "y"⟩)
    ⟨⟨"POST", "https://connect.mailerlite.com/api/subscribers"⟩, 500, .fresh .readErr⟩
    (by decide) (Or.inl rfl)

/-- C8: `addOptions` with a nil-pointer options value returns the base
URL string verbatim with no error — for every base URL string (malformed
or not, since the nil check precedes parsing) and every URL parser. -/
theorem addOptions_nil_verbatim (urlParse : String → Option URL) (s : String) :
    addOptions urlParse s .nilPtr = (s, none) :=
  rfl

/-- C4: when the transport fails, `do` returns the context's error (and
a nil response) when the context is already done, and the raw transport
error (and a nil response) otherwise. -/
theorem doRequest_transport_failure (ctx : Ctx) (e : String)
    (u : String → Option ParsedBody) (dt : Option (ReadResult → Option String)) :
    (ctx.done = true →
      doRequest ctx (.error e) u dt = (none, some (.ctxErr ctx.errMsg)))
  ∧ (ctx.done = false →
      doRequest ctx (.error e) u dt = (none, some (.transportErr e))) := by
  constructor <;> intro h <;> simp [doRequest, h]

/-- Witness for C4: a nil-response transport failure under an already
cancelled context yields the cancellation error, not the transport
error. -/
theorem doRequest_transport_failure_witness :
    (Ctx.mk true "context canceled").done = true
  ∧ doRequest ⟨true, "context canceled"⟩ (.error "http: nil Response") (fun _ => none) none
      = (none, some (.ctxErr "context canceled")) :=
  ⟨rfl, (doRequest_transport_failure ⟨true, "context canceled"⟩ "http: nil Response"
      (fun _ => none) none).1 rfl⟩

/-- On either failure (parse or values), `addOptions` returns the input
string as its first component. -/
lemma addOptions_error_fst (p : String → Option URL) (s : String) (o : OptInput)
    (e : AddOptErr) (h : (addOptions p s o).2 = some e) :
    (addOptions p s o).1 = s := by
  cases o with
  | nilPtr => rfl
  | opts vals =>
      cases hp : p s with
      | none => simp [addOptions, hp]
      | some u =>
          cases vals with
          | error e2 => simp [addOptions, hp]
          | ok nv => simp [addOptions, hp] at h

/-- C5: for a GET request, an `addOptions` failure never surfaces:
`newRequest` discards the error component, and the URL used is the
unmodified base-plus-path URL, so the outcome is exactly that of
building the request from the unmodified URL; in particular when that
URL parses the request is built successfully. -/
theorem newRequest_get_ignores_encoder_error (apiBase apiKey path : String)
    (p : String → Option URL) (b : BodyVal) (e : AddOptErr)
    (henc : (addOptions p (apiBase ++ path) b.asOpt).2 = some e) :
    newRequest apiBase apiKey p methodGet path b
      = (httpNewRequest p methodGet (apiBase ++ path) "").map (setHeaders apiKey)
  ∧ ∀ u : URL, p (apiBase ++ path) = some u →
      newRequest apiBase apiKey p methodGet path b
        = .ok { method := methodGet, url := apiBase ++ path, body := "",
                headers := stdHeaders apiKey } := by
  have hfst : (addOptions p (apiBase ++ path) b.asOpt).1 = apiBase ++ path :=
    addOptions_error_fst _ _ _ _ henc
  have hmain : newRequest apiBase apiKey p methodGet path b
      = (httpNewRequest p methodGet (apiBase ++ path) "").map (setHeaders apiKey) := by
    unfold newRequest
    rw [if_neg (by decide), if_pos rfl, hfst]
  refine ⟨hmain, fun u hu => ?_⟩
  rw [hmain]
  unfold httpNewRequest
  rw [hu]
  rfl

/-- Witness for C5: with a `query.Values` failure on the options value,
the GET request is still built, on the unmodified base-plus-path URL. -/
theorem newRequest_get_ignores_encoder_error_witness :
    ((addOptions (fun s => some { pre := s, query := [] })
        ("https://connect.mailerlite.com/api" ++ "/subscribers")
        (OptInput.opts (.error "query: unsupported type"))).2
      = some (.valuesErr "query: unsupported type"))
  ∧ newRequest "https://connect.mailerlite.com/api" "valid-api-key"
      (fun s => some { pre := s, query := [] }) methodGet "/subscribers"
      ⟨.ok "null", .opts (.error "query: unsupported type")⟩
      = .ok { method := methodGet, url := "https://connect.mailerlite.com/api" ++ "/subscribers",
              body := "", headers := stdHeaders "valid-api-key" } := by
  refine ⟨rfl, ?_⟩
  exact (newRequest_get_ignores_encoder_error "https://connect.mailerlite.com/api"
      "valid-api-key" "/subscribers" (fun s => some { pre := s, query := [] })
      ⟨.ok "null", .opts (.error "query: unsupported type")⟩ _ rfl).2 _ rfl

/-- C9: for POST/PUT/DELETE the request body is the JSON encoding of the
payload followed by a newline, hence never empty; for a nil payload the
body is `null` plus newline. -/
theorem newRequest_mutating_body_newline :
    (∀ (apiBase apiKey path : String) (p : String → Option URL) (b : BodyVal)
        (m s : String) (req : GoRequest),
        (m = methodPost ∨ m = methodPut ∨ m = methodDelete) →
        b.asJson = .ok s →
        newRequest apiBase apiKey p m path b = .ok req →
        req.body = s ++ "\n" ∧ req.body ≠ "")
  ∧ (∀ (apiBase apiKey path : String) (p : String → Option URL)
        (m : String) (req : GoRequest),
        (m = methodPost ∨ m = methodPut ∨ m = methodDelete) →
        newRequest apiBase apiKey p m path goNilPayload = .ok req →
        req.body = "null\n") := by
  have part1 : ∀ (apiBase apiKey path : String) (p : String → Option URL) (b : BodyVal)
      (m s : String) (req : GoRequest),
      (m = methodPost ∨ m = methodPut ∨ m = methodDelete) →
      b.asJson = .ok s →
      newRequest apiBase apiKey p m path b = .ok req →
      req.body = s ++ "\n" ∧ req.body ≠ "" := by
    intro apiBase apiKey path p b m s req hm hj hreq
    unfold newRequest at hreq
    rw [if_pos hm, hj] at hreq
    cases hp : p (apiBase ++ path) with
    | none =>
        unfold httpNewRequest at hreq
        rw [hp] at hreq
        simp [Except.map] at hreq
    | some u =>
        unfold httpNewRequest at hreq
        rw [hp] at hreq
        simp only [Except.map] at hreq
        obtain rfl : setHeaders apiKey
            { method := m, url := apiBase ++ path, body := s ++ "\n", headers := [] } = req := by
          simpa using hreq
        refine ⟨rfl, fun h0 => ?_⟩
        have h0' : s ++ "\n" = "" := h0
        have h1 := congrArg String.length h0'
        rw [String.length_append] at h1
        have h2 : ("\n" : String).length = 1 := rfl
        have h3 : ("" : String).length = 0 := rfl
        rw [h2, h3] at h1
        omega
  refine ⟨part1, ?_⟩
  intro apiBase apiKey path p m req hm hreq
  have := (part1 apiBase apiKey path p goNilPayload m "null" req hm rfl hreq).1
  rw [this]
  rfl

/-- Witness for C9: a POST with payload marshalled to `{}` gets the body
with a trailing newline, and it is nonempty. -/
theorem newRequest_mutating_body_newline_witness :
    (methodPost = methodPost ∨ methodPost = methodPut ∨ methodPost = methodDelete)
  ∧ (BodyVal.mk (.ok "{}") .nilPtr).asJson = .ok "{}"
  ∧ newRequest "https://connect.mailerlite.com/api" "valid-api-key"
      (fun s => some { pre := s, query := [] }) methodPost "/subscribers"
      ⟨.ok "{}", .nilPtr⟩
      = .ok { method := methodPost, url := "https://connect.mailerlite.com/api" ++ "/subscribers",
              body := "{}" ++ "\n", headers := stdHeaders "valid-api-key" }
  ∧ ("{}" ++ "\n" : String) ≠ "" := by
  refine ⟨Or.inl rfl, rfl, rfl, ?_⟩
  exact (newRequest_mutating_body_newline.1 "https://connect.mailerlite.com/api"
      "valid-api-key" "/subscribers" (fun s => some { pre := s, query := [] })
      ⟨.ok "{}", .nilPtr⟩ methodPost "{}"
      { method := methodPost, url := "https://connect.mailerlite.com/api" ++ "/subscribers",
        body := "{}" ++ "\n", headers := stdHeaders "valid-api-key" }
      (Or.inl rfl) rfl rfl).2

/-- C6: `nextPageToken` returns the empty token with no error when the
links object is nil or `next` is empty; otherwise it parses `next` and
returns the `page_token` query parameter (empty when absent, still no
error), and it returns an error exactly when `next` is non-empty and
fails to parse.  `prevPageToken` behaves symmetrically on `prev`. -/
theorem pageToken_extraction (p : String → Option URL) :
    (nextPageToken p none = .ok "")
  ∧ (∀ lk : Links, lk.next = "" → nextPageToken p (some lk) = .ok "")
  ∧ (∀ (lk : Links) (u : URL), lk.next ≠ "" → p lk.next = some u →
      nextPageToken p (some lk) = .ok (u.query.get "page_token"))
  ∧ (∀ lk : Links, lk.next ≠ "" → p lk.next = none →
      nextPageToken p (some lk) = .error ("parse " ++ lk.next))
  ∧ (prevPageToken p none = .ok "")
  ∧ (∀ lk : Links, lk.prev = "" → prevPageToken p (some lk) = .ok "")
  ∧ (∀ (lk : Links) (u : URL), lk.prev ≠ "" → p lk.prev = some u →
      prevPageToken p (some lk) = .ok (u.query.get "page_token"))
  ∧ (∀ lk : Links, lk.prev ≠ "" → p lk.prev = none →
      prevPageToken p (some lk) = .error ("parse " ++ lk.prev)) := by
  refine ⟨rfl, ?_, ?_, ?_, rfl, ?_, ?_, ?_⟩
  · intro lk h
    simp [nextPageToken, h]
  · intro lk u hne hp
    simp [nextPageToken, pageTokenFromURL, hne, hp]
  · intro lk hne hp
    simp [nextPageToken, pageTokenFromURL, hne, hp]
  · intro lk h
    simp [prevPageToken, h]
  · intro lk u hne hp
    simp [prevPageToken, pageTokenFromURL, hne, hp]
  · intro lk hne hp
    simp [prevPageToken, pageTokenFromURL, hne, hp]

/-- Witness for C6: a `next` link carrying `page_token=abc` yields the
token `abc`. -/
theorem pageToken_extraction_witness :
    ("https://connect.mailerlite.com/api/subscribers?page=2&page_token=abc" : String) ≠ ""
  ∧ nextPageToken demoParse
      (some ⟨"f", "l", "",
        "https://connect.mailerlite.com/api/subscribers?page=2&page_token=abc"⟩)
      = .ok "abc" := by
  refine ⟨by decide, ?_⟩
  exact (pageToken_extraction demoParse).2.2.1
    ⟨"f", "l", "", "https://connect.mailerlite.com/api/subscribers?page=2&page_token=abc"⟩
    ⟨"https://connect.mailerlite.com/api/subscribers", [("page", ["2"]), ("page_token", ["abc"])]⟩
    (by decide) rfl

/-- `setKey` leaves other keys' lookups unchanged. -/
lemma getKey_setKey_ne (vs : Values) (k' k : String) (v : List String) (h : k' ≠ k) :
    (vs.setKey k' v).getKey k = vs.getKey k := by
  induction vs with
  | nil => simp [Values.setKey, Values.getKey, h]
  | cons hd tl ih =>
      obtain ⟨k0, v0⟩ := hd
      by_cases h0 : k0 = k'
      · subst h0
        simp [Values.setKey, Values.getKey, h]
      · simp [Values.setKey, h0, Values.getKey, ih]

/-- `addKey` leaves other keys' lookups unchanged. -/
lemma getKey_addKey_ne (vs : Values) (k' k : String) (v : String) (h : k' ≠ k) :
    (vs.addKey k' v).getKey k = vs.getKey k := by
  induction vs with
  | nil => simp [Values.addKey, Values.getKey, h]
  | cons hd tl ih =>
      obtain ⟨k0, v0⟩ := hd
      by_cases h0 : k0 = k'
      · subst h0
        simp [Values.addKey, Values.getKey, h]
      · simp [Values.addKey, h0, Values.getKey, ih]

/-- Adding to an absent key stores exactly the one-element slice. -/
lemma getKey_addKey_self (vs : Values) (k : String) (v : String) (h : vs.getKey k = none) :
    (vs.addKey k v).getKey k = some [v] := by
  induction vs with
  | nil => simp [Values.addKey, Values.getKey]
  | cons hd tl ih =>
      obtain ⟨k0, v0⟩ := hd
      by_cases h0 : k0 = k
      · simp [Values.getKey, h0] at h
      · simp [Values.getKey, h0] at h
        simp [Values.addKey, h0, Values.getKey, ih h]

/-- An absent key has zero entries. -/
lemma countKey_zero_of_getKey_none (vs : Values) (k : String) (h : vs.getKey k = none) :
    vs.countKey k = 0 := by
  induction vs with
  | nil => rfl
  | cons hd tl ih =>
      obtain ⟨k0, v0⟩ := hd
      by_cases h0 : k0 = k
      · simp [Values.getKey, h0] at h
      · simp [Values.getKey, h0] at h
        simp [Values.countKey, h0, ih h]

/-- Adding to an absent key yields exactly one entry under it. -/
lemma countKey_addKey_self (vs : Values) (k : String) (v : String) (h : vs.getKey k = none) :
    (vs.addKey k v).countKey k = 1 := by
  induction vs with
  | nil => simp [Values.addKey, Values.countKey]
  | cons hd tl ih =>
      obtain ⟨k0, v0⟩ := hd
      by_cases h0 : k0 = k
      · simp [Values.getKey, h0] at h
      · simp [Values.getKey, h0] at h
        simp [Values.addKey, h0, Values.countKey, ih h]

/-- The loop does not touch `filterKey` when no `Filter[Name]` key occurs. -/
lemma applyLoop_filterKey (nv : Values) :
    ∀ st : LoopState, (∀ kv ∈ nv, kv.1 ≠ "Filter[Name]") →
      (applyLoop nv st).filterKey = st.filterKey := by
  induction nv with
  | nil => intro st _; rfl
  | cons hd tl ih =>
      intro st h
      obtain ⟨k0, v0⟩ := hd
      have hk0 : k0 ≠ "Filter[Name]" := h (k0, v0) (List.mem_cons_self _ _)
      have htl : ∀ kv ∈ tl, kv.1 ≠ "Filter[Name]" :=
        fun kv hkv => h kv (List.mem_cons_of_mem _ hkv)
      by_cases h1 : k0 = "Filter"
      · simp [applyLoop, h1, ih _ htl]
      · by_cases h3 : k0 = "Filter[Value]"
        · simp [applyLoop, h1, hk0, h3, ih _ htl]
        · simp [applyLoop, h1, hk0, h3, ih _ htl]

/-- The loop does not touch `filterValue` when no `Filter[Value]` key occurs. -/
lemma applyLoop_filterValue (nv : Values) :
    ∀ st : LoopState, (∀ kv ∈ nv, kv.1 ≠ "Filter[Value]") →
      (applyLoop nv st).filterValue = st.filterValue := by
  induction nv with
  | nil => intro st _; rfl
  | cons hd tl ih =>
      intro st h
      obtain ⟨k0, v0⟩ := hd
      have hk0 : k0 ≠ "Filter[Value]" := h (k0, v0) (List.mem_cons_self _ _)
      have htl : ∀ kv ∈ tl, kv.1 ≠ "Filter[Value]" :=
        fun kv hkv => h kv (List.mem_cons_of_mem _ hkv)
      by_cases h1 : k0 = "Filter"
      · simp [applyLoop, h1, ih _ htl]
      · by_cases h2 : k0 = "Filter[Name]"
        · simp [applyLoop, h1, h2, ih _ htl]
        · simp [applyLoop, h1, h2, hk0, ih _ htl]

/-- The loop does not change the lookup of a key none of its input keys
equals. -/
lemma applyLoop_getKey (k : String) (nv : Values) :
    ∀ st : LoopState, (∀ kv ∈ nv, kv.1 ≠ k) →
      ((applyLoop nv st).orig).getKey k = st.orig.getKey k := by
  induction nv with
  | nil => intro st _; rfl
  | cons hd tl ih =>
      intro st h
      obtain ⟨k0, v0⟩ := hd
      have hk0 : k0 ≠ k := h (k0, v0) (List.mem_cons_self _ _)
      have htl : ∀ kv ∈ tl, kv.1 ≠ k := fun kv hkv => h kv (List.mem_cons_of_mem _ hkv)
      by_cases h1 : k0 = "Filter"
      · simp [applyLoop, h1, ih _ htl]
      · by_cases h2 : k0 = "Filter[Name]"
        · simp [applyLoop, h1, h2, ih _ htl]
        · by_cases h3 : k0 = "Filter[Value]"
          · simp [applyLoop, h1, h2, h3, ih _ htl]
          · simp only [applyLoop, if_neg h1, if_neg h2, if_neg h3]
            rw [ih _ htl]
            show (st.orig.setKey k0 v0).getKey k = st.orig.getKey k
            exact getKey_setKey_ne _ _ _ _ hk0

/-- A synthesized `filter[<name>]` key starts with the character `f`. -/
lemma filterKey_head (N : String) : ("filter[" ++ N ++ "]").data.head? = some 'f' := rfl

/-- A synthesized `filter[<name>]` key differs from any string that does
not start with `f`. -/
lemma filterKey_ne (N s : String) (h : s.data.head? ≠ some 'f') :
    ("filter[" ++ N ++ "]") ≠ s :=
  fun he => h (he ▸ filterKey_head N)

/-- A synthesized `filter[<name>]` key is nonempty. -/
lemma filterKey_ne_empty (N : String) : ("filter[" ++ N ++ "]") ≠ "" :=
  filterKey_ne N "" (by decide)

/-- With a filter present (and the synthetic keys not recurring
elsewhere), `applyOptions` reduces to the loop over the remaining keys
followed by one `Add` of `filter[<name>] = <value>`. -/
lemma applyOptions_with_filter (N V : String) (rest orig : Values)
    (hrest : ∀ kv ∈ rest, kv.1 ≠ "Filter" ∧ kv.1 ≠ "Filter[Name]" ∧ kv.1 ≠ "Filter[Value]"
      ∧ kv.1 ≠ "filter[" ++ N ++ "]") :
    applyOptions orig (("Filter[Name]", [N]) :: ("Filter[Value]", [V]) :: rest)
      = ((applyLoop rest ⟨orig, "filter[" ++ N ++ "]", V⟩).orig).addKey
          ("filter[" ++ N ++ "]") V := by
  have h0 : applyLoop (("Filter[Name]", [N]) :: ("Filter[Value]", [V]) :: rest) ⟨orig, "", ""⟩
      = applyLoop rest ⟨orig, "filter[" ++ N ++ "]", V⟩ := rfl
  have hfk : (applyLoop rest ⟨orig, "filter[" ++ N ++ "]", V⟩).filterKey
      = "filter[" ++ N ++ "]" :=
    applyLoop_filterKey rest _ (fun kv hkv => (hrest kv hkv).2.1)
  have hfv : (applyLoop rest ⟨orig, "filter[" ++ N ++ "]", V⟩).filterValue = V :=
    applyLoop_filterValue rest _ (fun kv hkv => (hrest kv hkv).2.2.1)
  simp only [applyOptions]
  rw [h0, if_pos (show (applyLoop rest ⟨orig, "filter[" ++ N ++ "]", V⟩).filterKey ≠ "" by
    rw [hfk]; exact filterKey_ne_empty N)]
  rw [hfk, hfv]

/-- C3: for every options value carrying a filter with name `N` and
value `V` (the synthetic keys `Filter[Name]`/`Filter[Value]` produced by
`query.Values`, with no other occurrence of the special or synthesized
keys, against a base query free of them), the merged query contains
exactly one `filter[N]` key, holding `V`, and none of the raw keys
`Filter`, `Filter[Name]`, `Filter[Value]`; and for every options value
with no filter present (no `Filter[Name]` key, no `filter[...]`-shaped
keys of its own, base query free of them), the merged query contains no
`filter[...]` key. -/
theorem addOptions_filter_flattening :
    (∀ (N V : String) (rest orig : Values),
      (∀ kv ∈ rest, kv.1 ≠ "Filter" ∧ kv.1 ≠ "Filter[Name]" ∧ kv.1 ≠ "Filter[Value]"
        ∧ kv.1 ≠ "filter[" ++ N ++ "]") →
      orig.getKey ("filter[" ++ N ++ "]") = none →
      orig.getKey "Filter" = none →
      orig.getKey "Filter[Name]" = none →
      orig.getKey "Filter[Value]" = none →
      (applyOptions orig (("Filter[Name]", [N]) :: ("Filter[Value]", [V]) :: rest)).getKey
          ("filter[" ++ N ++ "]") = some [V]
      ∧ (applyOptions orig (("Filter[Name]", [N]) :: ("Filter[Value]", [V]) :: rest)).countKey
          ("filter[" ++ N ++ "]") = 1
      ∧ (applyOptions orig (("Filter[Name]", [N]) :: ("Filter[Value]", [V]) :: rest)).getKey
          "Filter" = none
      ∧ (applyOptions orig (("Filter[Name]", [N]) :: ("Filter[Value]", [V]) :: rest)).getKey
          "Filter[Name]" = none
      ∧ (applyOptions orig (("Filter[Name]", [N]) :: ("Filter[Value]", [V]) :: rest)).getKey
          "Filter[Value]" = none)
  ∧ (∀ (nv orig : Values),
      (∀ kv ∈ nv, kv.1 ≠ "Filter[Name]") →
      (∀ kv ∈ nv, isFilterKey kv.1 = false) →
      (∀ k : String, isFilterKey k = true → orig.getKey k = none) →
      ∀ k : String, isFilterKey k = true → (applyOptions orig nv).getKey k = none) := by
  constructor
  · intro N V rest orig hrest ho1 ho2 ho3 ho4
    rw [applyOptions_with_filter N V rest orig hrest]
    have hnone : ((applyLoop rest ⟨orig, "filter[" ++ N ++ "]", V⟩).orig).getKey
        ("filter[" ++ N ++ "]") = none := by
      rw [applyLoop_getKey _ rest _ (fun kv hkv => (hrest kv hkv).2.2.2)]
      exact ho1
    have hF : ((applyLoop rest ⟨orig, "filter[" ++ N ++ "]", V⟩).orig).getKey "Filter"
        = none := by
      rw [applyLoop_getKey _ rest _ (fun kv hkv => (hrest kv hkv).1)]
      exact ho2
    have hFN : ((applyLoop rest ⟨orig, "filter[" ++ N ++ "]", V⟩).orig).getKey "Filter[Name]"
        = none := by
      rw [applyLoop_getKey _ rest _ (fun kv hkv => (hrest kv hkv).2.1)]
      exact ho3
    have hFV : ((applyLoop rest ⟨orig, "filter[" ++ N ++ "]", V⟩).orig).getKey "Filter[Value]"
        = none := by
      rw [applyLoop_getKey _ rest _ (fun kv hkv => (hrest kv hkv).2.2.1)]
      exact ho4
    refine ⟨getKey_addKey_self _ _ _ hnone, countKey_addKey_self _ _ _ hnone, ?_, ?_, ?_⟩
    · rw [getKey_addKey_ne _ _ _ _ (filterKey_ne N "Filter" (by decide))]
      exact hF
    · rw [getKey_addKey_ne _ _ _ _ (filterKey_ne N "Filter[Name]" (by decide))]
      exact hFN
    · rw [getKey_addKey_ne _ _ _ _ (filterKey_ne N "Filter[Value]" (by decide))]
      exact hFV
  · intro nv orig h1 h2 h3 k hk
    have hfk0 : (applyLoop nv ⟨orig, "", ""⟩).filterKey = "" :=
      applyLoop_filterKey nv ⟨orig, "", ""⟩ h1
    have hout : applyOptions orig nv = (applyLoop nv ⟨orig, "", ""⟩).orig := by
      simp only [applyOptions]
      rw [if_neg (fun hcon => hcon hfk0)]
    rw [hout]
    have hne : ∀ kv ∈ nv, kv.1 ≠ k := by
      intro kv hkv he
      have hkv2 := h2 kv hkv
      rw [he] at hkv2
      rw [hkv2] at hk
      cases hk
    rw [applyLoop_getKey k nv ⟨orig, "", ""⟩ hne]
    exact h3 k hk

/-- Witness for C3: filter name `status`, value `active`, one ordinary
key `limit`, empty base query. -/
theorem addOptions_filter_flattening_witness :
    (applyOptions []
        [("Filter[Name]", ["status"]), ("Filter[Value]", ["active"]),
         ("limit", ["10"])]).getKey "filter[status]" = some ["active"]
  ∧ (applyOptions []
        [("Filter[Name]", ["status"]), ("Filter[Value]", ["active"]),
         ("limit", ["10"])]).countKey "filter[status]" = 1
  ∧ (applyOptions []
        [("Filter[Name]", ["status"]), ("Filter[Value]", ["active"]),
         ("limit", ["10"])]).getKey "Filter" = none
  ∧ (applyOptions [] [("limit", ["10"])]).getKey "filter[status]" = none := by
  have h := addOptions_filter_flattening
  have h1 := h.1 "status" "active" [("limit", ["10"])] [] (by decide) rfl rfl rfl rfl
  exact ⟨h1.1, h1.2.1, h1.2.2.1,
    h.2 [("limit", ["10"])] [] (by decide) (by decide) (fun k _ => rfl) "filter[status]"
      (by decide)⟩
